import Mathlib

/-!
Shallow embedding of the camellia-io event loop (`src/el.go`).

Time values (`time.Time`) and durations (`time.Duration`) are modelled as
integers counting nanoseconds, matching Go's `int64`-nanosecond
representation. Opaque payloads (`interface` values) are modelled as
integers; callback functions (`TriggerProc`, `EventProc`) are modelled as
numeric identifiers, and every invocation the loop performs is recorded in
an observable trace (`Call`). A descriptor callback's behaviour — the
`Action` it returns, whether it stages a payload via `SetTriggerDataPtr`,
and whether it calls `Done` — is supplied by an environment (`EProcEnv`),
and the ready-descriptor list returned by each poll is supplied as an
oracle, since the selector's poll is external I/O.
-/

namespace Camellia

abbrev Payload := Int
abbrev Fd := Int
abbrev Mask := Nat
abbrev Time := Int
abbrev Duration := Int

/-- Modelled from the spec: the selector's interest masks "distinguish at
least readable and writable interest as independent bits"; the constants
live in the `internal` package, which is not part of the sources. -/
def EV_READABLE : Mask := 1

/-- Modelled from the spec: writable-interest bit of the `internal` package. -/
def EV_WRITABLE : Mask := 2

/-- `type Action int` together with the seven iota constants. -/
abbrev Action := Int

def CONTINUE : Action := 0
def SHUTDOWN_RD : Action := 1
def SHUTDOWN_WR : Action := 2
def SHUTDOWN_RDWR : Action := 3
def TRIGGER_OPEN_EVENT : Action := 4
def TRIGGER_DATA_EVENT : Action := 5
def TRIGGER_CLOSE_EVENT : Action := 6

/-- `EventData` wraps a descriptor callback (an identifier here) and its
opaque datum, exactly as `Register` stores them in the selector. -/
structure EventData where
  e : Nat
  data : Option Payload
deriving DecidableEq, Repr

/-- One registered descriptor inside the modelled selector. -/
structure Reg where
  fd : Fd
  mask : Mask
  data : EventData
deriving DecidableEq, Repr

/-- Errors the modelled selector can report. -/
inductive SelErr where
  | notRegistered
  | alreadyRegistered
deriving DecidableEq, Repr

/-- Modelled from the spec: the `internal.Selector` collaborator is not
under the sources; the spec specifies only its interface
(`register`, `unregister`, `poll`) and that registration "fails with
whatever error the Selector reports (e.g., descriptor already
registered)". The state is the set of registered descriptors with their
interest masks and opaque data. -/
structure Selector where
  regs : List Reg
deriving DecidableEq, Repr

/-- Modelled from the spec: `register(descriptor, interest_mask, payload)`
fails when the descriptor is already registered, else records it. -/
def Selector.register (s : Selector) (fd : Fd) (mask : Mask) (d : EventData) :
    Option SelErr × Selector :=
  if s.regs.any (fun r => r.fd = fd) then (some SelErr.alreadyRegistered, s)
  else (none, ⟨s.regs ++ [⟨fd, mask, d⟩]⟩)

/-- Modelled from the spec: `unregister(descriptor, interest_mask)` clears
the given interest bits of a registered descriptor (dropping the entry when
no interest remains) and reports an error for an unknown descriptor. -/
def Selector.unregister (s : Selector) (fd : Fd) (mask : Mask) :
    Option SelErr × Selector :=
  if s.regs.any (fun r => r.fd = fd) then
    (none, ⟨s.regs.filterMap (fun r =>
      if r.fd = fd then
        let m := r.mask - (r.mask &&& mask)
        if m = 0 then none else some ⟨r.fd, m, r.data⟩
      else some r)⟩)
  else (some SelErr.notRegistered, s)

/-- `Event`: the four optional lifecycle callbacks, as identifiers. -/
structure Event where
  Serving : Option Nat
  Open : Option Nat
  Closed : Option Nat
  Data : Option Nat
deriving DecidableEq, Repr

/-- `PeriodTask`: fixed interval, callback, mutable next trigger time. -/
structure PeriodTask where
  Interval : Duration
  Event : Nat
  nextTriggerTime : Time
deriving DecidableEq, Repr

/-- `t.setNextTriggerTime()`: `t.nextTriggerTime = time.Now().Add(t.Interval)`,
with the current time passed explicitly. -/
def PeriodTask.setNextTriggerTime (t : PeriodTask) (now : Time) : PeriodTask :=
  { t with nextTriggerTime := now + t.Interval }

/-- The `EventLoop` state: selector, events, default interval, termination
flag, pending payload slot (`triggerDataPtr`), and period tasks. -/
structure EventLoop where
  selector : Selector
  events : List Event
  interval : Duration
  done : Bool
  triggerDataPtr : Option Payload
  periodTasks : List PeriodTask
deriving DecidableEq, Repr

/-- `NewEventLoop()`: empty selector, no events or tasks, 100 ms default
interval (in nanoseconds), flag clear, empty payload slot. -/
def NewEventLoop : EventLoop :=
  { selector := ⟨[]⟩
    events := []
    interval := 100000000
    done := false
    triggerDataPtr := none
    periodTasks := [] }

/-- `AddEvent` appends an event. -/
def EventLoop.AddEvent (el : EventLoop) (e : Event) : EventLoop :=
  { el with events := el.events ++ [e] }

/-- `AddPeriodTask` appends a period task. -/
def EventLoop.AddPeriodTask (el : EventLoop) (t : PeriodTask) : EventLoop :=
  { el with periodTasks := el.periodTasks ++ [t] }

/-- `SetTriggerDataPtr` stages a payload in the pending slot. -/
def EventLoop.SetTriggerDataPtr (el : EventLoop) (d : Payload) : EventLoop :=
  { el with triggerDataPtr := some d }

/-- `Done()` sets the termination flag. -/
def EventLoop.Done (el : EventLoop) : EventLoop :=
  { el with done := true }

/-- `Register` forwards to the selector, wrapping callback and datum as
`EventData`, and returns the selector's error unchanged. -/
def EventLoop.Register (el : EventLoop) (fd : Fd) (mask : Mask) (e : Nat)
    (d : Option Payload) : Option SelErr × EventLoop :=
  ((el.selector.register fd mask ⟨e, d⟩).1,
   { el with selector := (el.selector.register fd mask ⟨e, d⟩).2 })

/-- Observable calls the loop makes: the poll (with its timeout argument in
milliseconds), descriptor-callback invocations, selector unregistrations
(with the error the selector reported, which the loop discards), broadcast
or serving `TriggerProc` invocations, and period-task firings. -/
inductive Call where
  | poll (timeoutMs : Int)
  | eproc (cb : Nat) (data : Option Payload)
  | unreg (fd : Fd) (mask : Mask) (err : Option SelErr)
  | trigger (cb : Nat) (dataPtr : Option Payload)
  | taskFire (cb : Nat) (dataPtr : Option Payload)
deriving DecidableEq, Repr

/-- Whether a call is a period-task firing. -/
def Call.isTaskFire : Call → Bool
  | .taskFire _ _ => true
  | _ => false

/-- The `for _, t := range el.events` loops of `processAction` and `Run`:
invoke the selected callback of each event when it is set, skipping unset
ones, in list order, passing the given payload pointer. -/
def broadcastCalls (es : List Event) (sel : Event → Option Nat)
    (p : Option Payload) : List Call :=
  match es with
  | [] => []
  | t :: ts =>
    match sel t with
    | some cb => Call.trigger cb p :: broadcastCalls ts sel p
    | none => broadcastCalls ts sel p

/-- `processAction(action, fd)`: the switch on the seven actions, followed
by the unconditional `el.triggerDataPtr = nil`. Unregistration errors are
recorded in the trace but discarded by the loop. -/
def EventLoop.processAction (el : EventLoop) (action : Action) (fd : Fd) :
    EventLoop × List Call :=
  let p : EventLoop × List Call :=
    if action = SHUTDOWN_RD then
      ({ el with selector := (el.selector.unregister fd EV_READABLE).2 },
       [Call.unreg fd EV_READABLE (el.selector.unregister fd EV_READABLE).1])
    else if action = SHUTDOWN_WR then
      ({ el with selector := (el.selector.unregister fd EV_WRITABLE).2 },
       [Call.unreg fd EV_WRITABLE (el.selector.unregister fd EV_WRITABLE).1])
    else if action = SHUTDOWN_RDWR then
      ({ el with selector :=
          (((el.selector.unregister fd EV_READABLE).2).unregister fd EV_WRITABLE).2 },
       [Call.unreg fd EV_READABLE (el.selector.unregister fd EV_READABLE).1,
        Call.unreg fd EV_WRITABLE
          (((el.selector.unregister fd EV_READABLE).2).unregister fd EV_WRITABLE).1])
    else if action = TRIGGER_OPEN_EVENT then
      (el, broadcastCalls el.events (fun t => t.Open) el.triggerDataPtr)
    else if action = TRIGGER_DATA_EVENT then
      (el, broadcastCalls el.events (fun t => t.Data) el.triggerDataPtr)
    else if action = TRIGGER_CLOSE_EVENT then
      (el, broadcastCalls el.events (fun t => t.Closed) el.triggerDataPtr)
    else
      (el, [])
  ({ p.1 with triggerDataPtr := none }, p.2)

/-- The loop body of `findNearestTask`, carrying the index of the next
element and the current answer (index and task): replace the answer when it
is empty or when the element's trigger time is strictly before its. -/
def findNearestAux : List PeriodTask → Nat → Option (Nat × PeriodTask) →
    Option (Nat × PeriodTask)
  | [], _, ans => ans
  | t :: ts, i, none => findNearestAux ts (i + 1) (some (i, t))
  | t :: ts, i, some (j, a) =>
    if t.nextTriggerTime < a.nextTriggerTime then
      findNearestAux ts (i + 1) (some (i, t))
    else
      findNearestAux ts (i + 1) (some (j, a))

/-- `findNearestTask`: the task with the nearest `nextTriggerTime`, with
its position, or `none` when no task is registered. -/
def EventLoop.findNearestTask (el : EventLoop) : Option (Nat × PeriodTask) :=
  findNearestAux el.periodTasks 0 none

/-- Lines 63–71 of `Tick`: `sleepTime` is the default interval, overridden
by `nearestTask.nextTriggerTime.Sub(time.Now())` when a task exists. -/
def EventLoop.tickSleepTime (el : EventLoop) (now : Time) : Duration :=
  match el.findNearestTask with
  | none => el.interval
  | some (_, t) => t.nextTriggerTime - now

/-- The argument passed to `Selector.Poll`: `int(sleepTime / time.Millisecond)`,
Go division truncating toward zero. -/
def EventLoop.tickPollArg (el : EventLoop) (now : Time) : Int :=
  Int.tdiv (el.tickSleepTime now) 1000000

/-- What a descriptor callback (`EventProc`) does when invoked: the
`Action` it returns, the payload it stages through `SetTriggerDataPtr` (if
any), and whether it calls `Done`. -/
structure EProcRes where
  action : Action
  setPtr : Option Payload
  setDone : Bool

/-- Behaviour environment for descriptor callbacks: from the callback
identifier and its registered datum to what the invocation does. -/
abbrev EProcEnv := Nat → Option Payload → EProcRes

/-- One ready descriptor as returned by the poll: `k.Fd` and `k.Data`. -/
structure Key where
  Fd : Fd
  Data : EventData
deriving DecidableEq, Repr

/-- Apply a descriptor callback's side effects on the loop state. -/
def EventLoop.applyEProc (el : EventLoop) (r : EProcRes) : EventLoop :=
  { el with
    triggerDataPtr := match r.setPtr with
      | some p => some p
      | none => el.triggerDataPtr
    done := el.done || r.setDone }

/-- The `for _, k := range keys` loop of `Tick`: invoke each ready
descriptor's callback and dispatch the returned action. -/
def processKeys (env : EProcEnv) : EventLoop → List Key → EventLoop × List Call
  | el, [] => (el, [])
  | el, k :: ks =>
    let r := env k.Data.e k.Data.data
    let p1 := (el.applyEProc r).processAction r.action k.Fd
    let p2 := processKeys env p1.1 ks
    (p2.1, Call.eproc k.Data.e k.Data.data :: (p1.2 ++ p2.2))

/-- `Tick()`: compute the nearest task and the poll budget, poll (the ready
keys are an oracle input), process each ready key, then fire the nearest
task unconditionally with a nil payload and recompute its trigger time. -/
def EventLoop.Tick (el : EventLoop) (now : Time) (keys : List Key)
    (env : EProcEnv) : EventLoop × List Call :=
  let p1 := processKeys env el keys
  match el.findNearestTask with
  | none => (p1.1, Call.poll (el.tickPollArg now) :: p1.2)
  | some (j, t) =>
    ({ p1.1 with periodTasks := p1.1.periodTasks.set j (t.setNextTriggerTime now) },
     Call.poll (el.tickPollArg now) :: (p1.2 ++ [Call.taskFire t.Event none]))

/-- Oracle for the externally observed inputs of each tick: the current
time and the ready keys the poll returns, per iteration index. -/
abbrev TickOracle := Nat → Time × List Key

/-- The initialisation `Run` performs before looping: every period task's
trigger time is set to now plus its interval. -/
def EventLoop.runInit (el : EventLoop) (now0 : Time) : EventLoop :=
  { el with periodTasks := el.periodTasks.map (fun t => t.setNextTriggerTime now0) }

/-- The `for !el.done` loop of `Run`, with explicit fuel (the Go loop may
run forever) and the iteration index for the oracle: check the flag at the
top, run one full tick, continue. -/
def runLoop (env : EProcEnv) (oracle : TickOracle) :
    Nat → Nat → EventLoop → EventLoop × List Call
  | 0, _, el => (el, [])
  | fuel + 1, step, el =>
    if el.done then (el, [])
    else
      let p1 := el.Tick (oracle step).1 (oracle step).2 env
      let p2 := runLoop env oracle fuel (step + 1) p1.1
      (p2.1, p1.2 ++ p2.2)

/-- `Run()`: serving callbacks of every event in order (nil payload, unset
skipped), then initialise every task's trigger time, then loop ticks. -/
def EventLoop.Run (el : EventLoop) (now0 : Time) (env : EProcEnv)
    (oracle : TickOracle) (fuel : Nat) : EventLoop × List Call :=
  let p := runLoop env oracle fuel 0 (el.runInit now0)
  (p.1, broadcastCalls el.events (fun t => t.Serving) none ++ p.2)

/-! ## Helper lemmas -/

/-- The broadcast loop in closed form: every event whose selected callback
is set contributes exactly one invocation, in list order, with the given
payload; events with the callback unset are skipped. -/
lemma broadcastCalls_eq (es : List Event) (sel : Event → Option Nat)
    (p : Option Payload) :
    broadcastCalls es sel p
      = (es.filter (fun t => (sel t).isSome)).map
          (fun t => Call.trigger ((sel t).getD 0) p) := by
  induction es with
  | nil => rfl
  | cons b bs ih =>
    cases hb : sel b <;> simp [broadcastCalls, hb, ih]

/-- Characterisation of the `findNearestTask` loop body starting from a
non-empty answer `(j, a)`: either the answer survives and is a lower bound
of the whole list, or the result is a list element that strictly improves
on `a`, is a lower bound of the list, and strictly beats every list element
before it. -/
lemma findNearestAux_some (l : List PeriodTask) :
    ∀ (i j : Nat) (a : PeriodTask),
    ∃ k t, findNearestAux l i (some (j, a)) = some (k, t) ∧
      ((k = j ∧ t = a ∧ ∀ u ∈ l, a.nextTriggerTime ≤ u.nextTriggerTime)
        ∨ (∃ m, l.get? m = some t ∧ k = i + m
            ∧ t.nextTriggerTime < a.nextTriggerTime
            ∧ (∀ u ∈ l, t.nextTriggerTime ≤ u.nextTriggerTime)
            ∧ (∀ m' u, m' < m → l.get? m' = some u →
                t.nextTriggerTime < u.nextTriggerTime))) := by
  induction l with
  | nil =>
    intro i j a
    exact ⟨j, a, rfl, Or.inl ⟨rfl, rfl, by simp⟩⟩
  | cons b bs ih =>
    intro i j a
    by_cases hb : b.nextTriggerTime < a.nextTriggerTime
    · obtain ⟨k, t, hr, hcase⟩ := ih (i + 1) i b
      refine ⟨k, t, by simpa [findNearestAux, hb] using hr, Or.inr ?_⟩
      rcases hcase with ⟨hk, ht, hmin⟩ | ⟨m, hget, hk, hlt, hmin, hfirst⟩
      · subst hk
        subst ht
        refine ⟨0, rfl, by omega, hb, ?_, ?_⟩
        · intro u hu
          rcases List.mem_cons.mp hu with h | h
          · rw [h]
          · exact hmin u h
        · intro m' u hm' _
          omega
      · refine ⟨m + 1, by simpa using hget, by omega, lt_trans hlt hb, ?_, ?_⟩
        · intro u hu
          rcases List.mem_cons.mp hu with h | h
          · rw [h]; exact le_of_lt hlt
          · exact hmin u h
        · intro m' u hm' hget'
          cases m' with
          | zero =>
            have hub : b = u := by simpa using hget'
            rw [← hub]
            exact hlt
          | succ m'' =>
            exact hfirst m'' u (by omega) (by simpa using hget')
    · have hble : a.nextTriggerTime ≤ b.nextTriggerTime := not_lt.mp hb
      obtain ⟨k, t, hr, hcase⟩ := ih (i + 1) j a
      refine ⟨k, t, by simpa [findNearestAux, hb] using hr, ?_⟩
      rcases hcase with ⟨hk, ht, hmin⟩ | ⟨m, hget, hk, hlt, hmin, hfirst⟩
      · refine Or.inl ⟨hk, ht, ?_⟩
        intro u hu
        rcases List.mem_cons.mp hu with h | h
        · rw [h]; exact hble
        · exact hmin u h
      · refine Or.inr ⟨m + 1, by simpa using hget, by omega, hlt, ?_, ?_⟩
        · intro u hu
          rcases List.mem_cons.mp hu with h | h
          · rw [h]; exact le_of_lt (lt_of_lt_of_le hlt hble)
          · exact hmin u h
        · intro m' u hm' hget'
          cases m' with
          | zero =>
            have hub : b = u := by simpa using hget'
            rw [← hub]
            exact lt_of_lt_of_le hlt hble
          | succ m'' =>
            exact hfirst m'' u (by omega) (by simpa using hget')

/-- `findNearestTask` on a non-empty task list returns the task with the
globally nearest trigger time together with its position; every
earlier-registered task has a strictly later trigger time (first registered
wins ties, since the comparison is a strict "before"). -/
lemma findNearestTask_spec (el : EventLoop) (hne : el.periodTasks ≠ []) :
    ∃ k t, el.findNearestTask = some (k, t)
      ∧ el.periodTasks.get? k = some t
      ∧ (∀ u ∈ el.periodTasks, t.nextTriggerTime ≤ u.nextTriggerTime)
      ∧ (∀ i u, i < k → el.periodTasks.get? i = some u →
          t.nextTriggerTime < u.nextTriggerTime) := by
  obtain ⟨b, bs, hl⟩ := List.exists_cons_of_ne_nil hne
  unfold EventLoop.findNearestTask
  rw [hl]
  obtain ⟨k, t, hr, hcase⟩ := findNearestAux_some bs 1 0 b
  have hstep : findNearestAux (b :: bs) 0 none = findNearestAux bs 1 (some (0, b)) := rfl
  rcases hcase with ⟨hk, ht, hmin⟩ | ⟨m, hget, hk, hlt, hmin, hfirst⟩
  · refine ⟨k, t, by rw [hstep, hr], ?_, ?_, ?_⟩
    · rw [hk, ht]
      rfl
    · intro u hu
      rcases List.mem_cons.mp hu with h | h
      · rw [h, ht]
      · rw [ht]
        exact hmin u h
    · intro i u hi _
      omega
  · refine ⟨k, t, by rw [hstep, hr], ?_, ?_, ?_⟩
    · rw [hk, Nat.add_comm 1 m]
      simpa using hget
    · intro u hu
      rcases List.mem_cons.mp hu with h | h
      · rw [h]; exact le_of_lt hlt
      · exact hmin u h
    · intro i u hi hget'
      cases i with
      | zero =>
        have hub : b = u := by simpa using hget'
        rw [← hub]
        exact hlt
      | succ i' =>
        exact hfirst i' u (by omega) (by simpa using hget')

/-! ## Claims -/

/-- C2: for every Action value (the seven defined constants included), a
complete `processAction` step ends with the pending payload slot
(`triggerDataPtr`) empty: the dispatch clears it unconditionally,
regardless of which branch executed. -/
theorem processAction_clears_triggerDataPtr (el : EventLoop) (a : Action) (fd : Fd) :
    (el.processAction a fd).1.triggerDataPtr = none := rfl

/-- C7: dispatching `SHUTDOWN_RDWR` for a descriptor leaves the selector in
exactly the state produced by dispatching `SHUTDOWN_RD` and then
`SHUTDOWN_WR` for the same descriptor; in fact the whole loop states
agree. -/
theorem shutdown_rdwr_eq_rd_then_wr (el : EventLoop) (fd : Fd) :
    (el.processAction SHUTDOWN_RDWR fd).1.selector
      = (((el.processAction SHUTDOWN_RD fd).1).processAction SHUTDOWN_WR fd).1.selector
    ∧ (el.processAction SHUTDOWN_RDWR fd).1
      = (((el.processAction SHUTDOWN_RD fd).1).processAction SHUTDOWN_WR fd).1 :=
  ⟨rfl, rfl⟩

/-- C10: an Action value outside the seven defined constants hits no case
of the switch: no selector unregistration, no callback invocation, an empty
trace — yet the pending payload slot is still cleared, and dispatch cannot
fail (it returns a plain state). -/
theorem processAction_unknown_action (el : EventLoop) (a : Action) (fd : Fd)
    (h : a ∉ ([CONTINUE, SHUTDOWN_RD, SHUTDOWN_WR, SHUTDOWN_RDWR,
        TRIGGER_OPEN_EVENT, TRIGGER_DATA_EVENT, TRIGGER_CLOSE_EVENT] : List Action)) :
    el.processAction a fd = ({ el with triggerDataPtr := none }, []) := by
  simp only [List.mem_cons, List.not_mem_nil, or_false, not_or] at h
  obtain ⟨h0, h1, h2, h3, h4, h5, h6⟩ := h
  simp [EventLoop.processAction, h1, h2, h3, h4, h5, h6]

/-- Witness for C10 at the concrete out-of-range action 7. -/
theorem processAction_unknown_action_witness :
    NewEventLoop.processAction 7 5 = ({ NewEventLoop with triggerDataPtr := none }, []) :=
  processAction_unknown_action NewEventLoop 7 5 (by decide)

/-- C6: each broadcast action invokes the corresponding callback
(`Open` / `Data` / `Closed`) on every registered event exactly once, in
registration order, passing the current pending payload slot; events whose
callback is unset are skipped without error. -/
theorem broadcast_actions_in_order (el : EventLoop) (fd : Fd) :
    (el.processAction TRIGGER_OPEN_EVENT fd).2
      = (el.events.filter (fun t => t.Open.isSome)).map
          (fun t => Call.trigger (t.Open.getD 0) el.triggerDataPtr)
    ∧ (el.processAction TRIGGER_DATA_EVENT fd).2
      = (el.events.filter (fun t => t.Data.isSome)).map
          (fun t => Call.trigger (t.Data.getD 0) el.triggerDataPtr)
    ∧ (el.processAction TRIGGER_CLOSE_EVENT fd).2
      = (el.events.filter (fun t => t.Closed.isSome)).map
          (fun t => Call.trigger (t.Closed.getD 0) el.triggerDataPtr) :=
  ⟨broadcastCalls_eq el.events (fun t => t.Open) el.triggerDataPtr,
   broadcastCalls_eq el.events (fun t => t.Data) el.triggerDataPtr,
   broadcastCalls_eq el.events (fun t => t.Closed) el.triggerDataPtr⟩

/-- C9: `Register` returns the selector's registration error unchanged (in
particular the duplicate-descriptor error), with no retry; the shutdown
dispatch performs both unregistrations of `SHUTDOWN_RDWR` whatever errors
the selector reports, recording but discarding them, and returns no
error. -/
theorem register_passthrough_unreg_discarded (el : EventLoop) (fd : Fd)
    (mask : Mask) (e : Nat) (d : Option Payload) :
    (el.Register fd mask e d).1 = (el.selector.register fd mask ⟨e, d⟩).1
    ∧ (el.Register fd mask e d).2.selector = (el.selector.register fd mask ⟨e, d⟩).2
    ∧ ((∃ r ∈ el.selector.regs, r.fd = fd) →
        (el.Register fd mask e d).1 = some SelErr.alreadyRegistered)
    ∧ (el.processAction SHUTDOWN_RDWR fd).2
        = [Call.unreg fd EV_READABLE (el.selector.unregister fd EV_READABLE).1,
           Call.unreg fd EV_WRITABLE
             (((el.selector.unregister fd EV_READABLE).2).unregister fd EV_WRITABLE).1]
    ∧ (el.processAction SHUTDOWN_RDWR fd).1.selector
        = (((el.selector.unregister fd EV_READABLE).2).unregister fd EV_WRITABLE).2 := by
  refine ⟨rfl, rfl, ?_, rfl, rfl⟩
  intro h
  obtain ⟨r, hr, hfd⟩ := h
  have hany : el.selector.regs.any (fun r => r.fd = fd) = true := by
    rw [List.any_eq_true]
    exact ⟨r, hr, by simp [hfd]⟩
  simp [EventLoop.Register, Selector.register, hany]

/-- A loop with descriptor 4 registered, for the C9 witness. -/
def elReg : EventLoop :=
  { NewEventLoop with selector := ⟨[⟨4, 3, ⟨0, none⟩⟩]⟩ }

/-- Witness for C9: registering descriptor 4 twice surfaces the selector's
duplicate-registration error to the caller. -/
theorem register_passthrough_unreg_discarded_witness :
    (elReg.Register 4 1 9 none).1 = some SelErr.alreadyRegistered :=
  (register_passthrough_unreg_discarded elReg 4 1 9 none).2.2.1
    ⟨⟨4, 3, ⟨0, none⟩⟩, by decide, by decide⟩

/-- C5: on a non-empty task list, the task selected for firing is the one
with the globally nearest next-deadline, and every earlier-registered task
has a strictly later deadline — so when deadlines tie, the first registered
task wins (the comparison is a strict "before"). -/
theorem findNearestTask_globally_nearest_first_wins (el : EventLoop)
    (hne : el.periodTasks ≠ []) :
    ∃ k t, el.findNearestTask = some (k, t)
      ∧ el.periodTasks.get? k = some t
      ∧ (∀ u ∈ el.periodTasks, t.nextTriggerTime ≤ u.nextTriggerTime)
      ∧ (∀ i u, i < k → el.periodTasks.get? i = some u →
          t.nextTriggerTime < u.nextTriggerTime) :=
  findNearestTask_spec el hne

/-- Two tasks with equal deadlines, to exhibit the tie-break. -/
def elTie : EventLoop :=
  { NewEventLoop with periodTasks := [⟨10, 1, 5⟩, ⟨10, 2, 5⟩] }

/-- Witness for C5: with two equal deadlines the earlier-registered task
(index 0, callback 1) is selected. -/
theorem findNearestTask_globally_nearest_first_wins_witness :
    elTie.findNearestTask = some (0, ⟨10, 1, 5⟩)
    ∧ (∃ k t, elTie.findNearestTask = some (k, t)
        ∧ elTie.periodTasks.get? k = some t
        ∧ (∀ u ∈ elTie.periodTasks, t.nextTriggerTime ≤ u.nextTriggerTime)
        ∧ (∀ i u, i < k → elTie.periodTasks.get? i = some u →
            t.nextTriggerTime < u.nextTriggerTime)) :=
  ⟨by decide, findNearestTask_globally_nearest_first_wins elTie (by decide)⟩

/-- C1 (amended): with at least one task registered, the wait budget passed
to `Selector.Poll` is `(N.deadline - now)` truncated to whole milliseconds,
where `N` is the globally nearest task — the difference is NOT clamped at
zero and is negative once the deadline has passed; with no task it is the
fixed default interval in milliseconds. -/
theorem tick_poll_budget_amended (el : EventLoop) (now : Time) :
    (el.periodTasks = [] → el.tickPollArg now = Int.tdiv el.interval 1000000)
    ∧ (el.periodTasks ≠ [] → ∃ k t, el.findNearestTask = some (k, t)
        ∧ (∀ u ∈ el.periodTasks, t.nextTriggerTime ≤ u.nextTriggerTime)
        ∧ el.tickPollArg now = Int.tdiv (t.nextTriggerTime - now) 1000000) := by
  constructor
  · intro h
    unfold EventLoop.tickPollArg EventLoop.tickSleepTime EventLoop.findNearestTask
    rw [h]
    rfl
  · intro h
    obtain ⟨k, t, hfind, _, hmin, _⟩ := findNearestTask_spec el h
    refine ⟨k, t, hfind, hmin, ?_⟩
    unfold EventLoop.tickPollArg EventLoop.tickSleepTime
    rw [hfind]

/-- A loop whose single task's deadline (time 0) already lies 5 ms in the
past at poll time. -/
def elLate : EventLoop :=
  { NewEventLoop with periodTasks := [⟨50000000, 0, 0⟩] }

/-- Counterexample for C1 as stated: at `now` = 5 ms past the deadline the
budget passed to the poll is -5 ms, whereas `max 0 (deadline - now)` is
zero — the code never clamps the difference at zero. -/
theorem tick_poll_budget_counterexample :
    elLate.tickPollArg 5000000 = -5
    ∧ Int.tdiv (max 0 ((0 : Int) - 5000000)) 1000000 = 0
    ∧ elLate.tickPollArg 5000000 ≠ Int.tdiv (max 0 ((0 : Int) - 5000000)) 1000000 := by
  refine ⟨rfl, rfl, ?_⟩
  decide

/-- Witness for C1 (amended) on a loop with one task. -/
theorem tick_poll_budget_amended_witness :
    ∃ k t, elLate.findNearestTask = some (k, t)
      ∧ (∀ u ∈ elLate.periodTasks, t.nextTriggerTime ≤ u.nextTriggerTime)
      ∧ elLate.tickPollArg 5000000 = Int.tdiv (t.nextTriggerTime - 5000000) 1000000 :=
  (tick_poll_budget_amended elLate 5000000).2 (by decide)

/-- Broadcast invocations are never period-task firings. -/
lemma broadcastCalls_no_taskFire (es : List Event) (sel : Event → Option Nat)
    (p : Option Payload) :
    ∀ c ∈ broadcastCalls es sel p, c.isTaskFire = false := by
  induction es with
  | nil => simp [broadcastCalls]
  | cons b bs ih =>
    intro c hc
    cases hb : sel b with
    | none =>
      rw [broadcastCalls, hb] at hc
      exact ih c hc
    | some cb =>
      rw [broadcastCalls, hb] at hc
      rcases List.mem_cons.mp hc with h | h
      · rw [h]
        rfl
      · exact ih c h

/-- No branch of the action dispatch fires a period task. -/
lemma processAction_no_taskFire (el : EventLoop) (a : Action) (fd : Fd) :
    ∀ c ∈ (el.processAction a fd).2, c.isTaskFire = false := by
  intro c hc
  simp only [EventLoop.processAction] at hc
  split_ifs at hc
  · rcases List.mem_singleton.mp hc with h
    rw [h]; rfl
  · rcases List.mem_singleton.mp hc with h
    rw [h]; rfl
  · rcases List.mem_cons.mp hc with h | h
    · rw [h]; rfl
    · rw [List.mem_singleton.mp h]; rfl
  · exact broadcastCalls_no_taskFire el.events (fun t => t.Open) el.triggerDataPtr c hc
  · exact broadcastCalls_no_taskFire el.events (fun t => t.Data) el.triggerDataPtr c hc
  · exact broadcastCalls_no_taskFire el.events (fun t => t.Closed) el.triggerDataPtr c hc
  · simp at hc

/-- Processing the ready keys of a tick never fires a period task. -/
lemma processKeys_no_taskFire (env : EProcEnv) :
    ∀ (el : EventLoop) (ks : List Key),
    ∀ c ∈ (processKeys env el ks).2, c.isTaskFire = false := by
  intro el ks
  induction ks generalizing el with
  | nil => simp [processKeys]
  | cons k ks ih =>
    intro c hc
    simp only [processKeys] at hc
    rcases List.mem_cons.mp hc with h | h
    · rw [h]
      rfl
    · rcases List.mem_append.mp h with h1 | h1
      · exact processAction_no_taskFire _ _ _ c h1
      · exact ih _ c h1

/-- Action dispatch never touches the period-task list. -/
lemma processAction_periodTasks (el : EventLoop) (a : Action) (fd : Fd) :
    (el.processAction a fd).1.periodTasks = el.periodTasks := by
  simp only [EventLoop.processAction]
  split_ifs <;> rfl

/-- Key processing never touches the period-task list. -/
lemma processKeys_periodTasks (env : EProcEnv) :
    ∀ (el : EventLoop) (ks : List Key),
    (processKeys env el ks).1.periodTasks = el.periodTasks := by
  intro el ks
  induction ks generalizing el with
  | nil => rfl
  | cons k ks ih =>
    simp only [processKeys]
    rw [ih, processAction_periodTasks]
    rfl

/-- C3: in a tick with at least one registered task, after all ready keys
are processed the nearest task's callback fires unconditionally with no
payload — the trace holds its firing after the whole key-processing trace,
whatever `now` is (even before the deadline) — and exactly this one task
firing occurs in the tick: key processing fires none. -/
theorem tick_fires_nearest_unconditionally (el : EventLoop) (now : Time)
    (keys : List Key) (env : EProcEnv) (hne : el.periodTasks ≠ []) :
    ∃ k t, el.findNearestTask = some (k, t)
      ∧ (el.Tick now keys env).2
          = Call.poll (el.tickPollArg now)
              :: ((processKeys env el keys).2 ++ [Call.taskFire t.Event none])
      ∧ (processKeys env el keys).2.countP Call.isTaskFire = 0
      ∧ (el.Tick now keys env).2.countP Call.isTaskFire = 1 := by
  obtain ⟨k, t, hfind, -, -, -⟩ := findNearestTask_spec el hne
  have hkeys : (processKeys env el keys).2.countP Call.isTaskFire = 0 := by
    rw [List.countP_eq_zero]
    intro c hc
    simp [processKeys_no_taskFire env el keys c hc]
  have htr : (el.Tick now keys env).2
      = Call.poll (el.tickPollArg now)
          :: ((processKeys env el keys).2 ++ [Call.taskFire t.Event none]) := by
    unfold EventLoop.Tick
    rw [hfind]
  refine ⟨k, t, hfind, htr, hkeys, ?_⟩
  rw [htr]
  simp [List.countP_cons, List.countP_append, hkeys, Call.isTaskFire]

/-- A descriptor-callback environment whose callbacks just continue. -/
def env0 : EProcEnv := fun _ _ => ⟨CONTINUE, none, false⟩

/-- Witness for C3: a tick of `elLate` at a time 10 ms before the task's
deadline still fires the task (callback 0). -/
theorem tick_fires_nearest_unconditionally_witness :
    ∃ k t, elLate.findNearestTask = some (k, t)
      ∧ (elLate.Tick (-10000000) [] env0).2
          = Call.poll (elLate.tickPollArg (-10000000))
              :: ((processKeys env0 elLate []).2 ++ [Call.taskFire t.Event none])
      ∧ (processKeys env0 elLate []).2.countP Call.isTaskFire = 0
      ∧ (elLate.Tick (-10000000) [] env0).2.countP Call.isTaskFire = 1 :=
  tick_fires_nearest_unconditionally elLate (-10000000) [] env0 (by decide)

/-- C4 (amended): when the nearest task fires in a tick, its next-deadline
is recomputed as exactly `now + Interval`; for a positive interval this is
strictly later than the firing time, but for a zero (or negative) interval
it is not. -/
theorem task_deadline_recompute_amended (el : EventLoop) (now : Time)
    (keys : List Key) (env : EProcEnv) (k : Nat) (t : PeriodTask)
    (hfind : el.findNearestTask = some (k, t)) :
    (el.Tick now keys env).1.periodTasks.get? k = some (t.setNextTriggerTime now)
    ∧ (t.setNextTriggerTime now).nextTriggerTime = now + t.Interval
    ∧ (0 < t.Interval → now < (t.setNextTriggerTime now).nextTriggerTime) := by
  have hne : el.periodTasks ≠ [] := by
    intro h
    unfold EventLoop.findNearestTask at hfind
    rw [h] at hfind
    exact Option.noConfusion hfind
  obtain ⟨k', t', hfind', hget', -, -⟩ := findNearestTask_spec el hne
  rw [hfind] at hfind'
  injection Option.some.inj hfind' with hk ht
  rw [← hk, ← ht] at hget'
  have hlen : k < el.periodTasks.length := by
    by_contra hh
    push_neg at hh
    rw [List.get?_eq_none.mpr hh] at hget'
    exact Option.noConfusion hget'
  refine ⟨?_, rfl, ?_⟩
  · unfold EventLoop.Tick
    rw [hfind]
    simp only
    rw [processKeys_periodTasks]
    exact List.get?_set_eq_of_lt _ hlen
  · intro hpos
    have hv : (t.setNextTriggerTime now).nextTriggerTime = now + t.Interval := rfl
    rw [hv]
    exact lt_add_of_pos_right now hpos

/-- A loop with a single zero-interval task. -/
def elZero : EventLoop :=
  { NewEventLoop with periodTasks := [⟨0, 7, 0⟩] }

/-- Counterexample for C4 as stated: a task with interval 0 fires at time 0
and its recomputed next-deadline is again 0 — equal to the firing time, not
strictly greater. -/
theorem task_deadline_recompute_counterexample :
    (elZero.Tick 0 [] env0).2 = [Call.poll 0, Call.taskFire 7 none]
    ∧ ((elZero.Tick 0 [] env0).1.periodTasks.getD 0 ⟨0, 7, 0⟩).nextTriggerTime = 0
    ∧ ¬ ((0 : Int) < ((elZero.Tick 0 [] env0).1.periodTasks.getD 0 ⟨0, 7, 0⟩).nextTriggerTime) := by
  decide

/-- Witness for C4 (amended): `elLate`'s task (interval 50 ms) fires at
time 0 and its stored deadline becomes exactly 0 + 50 ms, strictly later. -/
theorem task_deadline_recompute_amended_witness :
    (elLate.Tick 0 [] env0).1.periodTasks.get? 0
        = some (PeriodTask.setNextTriggerTime ⟨50000000, 0, 0⟩ 0)
    ∧ (PeriodTask.setNextTriggerTime ⟨50000000, 0, 0⟩ 0).nextTriggerTime
        = 0 + (50000000 : Int)
    ∧ ((0 : Int) < (50000000 : Int) →
        (0 : Int) < (PeriodTask.setNextTriggerTime ⟨50000000, 0, 0⟩ 0).nextTriggerTime) :=
  task_deadline_recompute_amended elLate 0 [] env0 0 ⟨50000000, 0, 0⟩ (by decide)

/-- C8: `Run` first invokes `Serving` on every event in registration order
with no payload (skipping unset ones), then sets every task's deadline to
`now0 + Interval`, then repeats `Tick` while the termination flag read at
the top of the loop is false; a set flag stops the loop before any further
tick, a clear flag lets one complete tick run (its whole trace is emitted)
before the flag is read again, and `Done` sets the flag. -/
theorem run_phases_and_termination (el : EventLoop) (now0 : Time)
    (env : EProcEnv) (oracle : TickOracle) (fuel : Nat) :
    (el.Run now0 env oracle fuel).2
      = ((el.events.filter (fun t => t.Serving.isSome)).map
          (fun t => Call.trigger (t.Serving.getD 0) none))
        ++ (runLoop env oracle fuel 0 (el.runInit now0)).2
    ∧ (el.runInit now0).periodTasks
        = el.periodTasks.map (fun t => t.setNextTriggerTime now0)
    ∧ (∀ u ∈ (el.runInit now0).periodTasks,
        ∃ t ∈ el.periodTasks, u.nextTriggerTime = now0 + t.Interval)
    ∧ (∀ (f s : Nat) (e : EventLoop), e.done = true →
        runLoop env oracle f s e = (e, []))
    ∧ (∀ (f s : Nat) (e : EventLoop), e.done = false →
        runLoop env oracle (f + 1) s e
          = ((runLoop env oracle f (s + 1) (e.Tick (oracle s).1 (oracle s).2 env).1).1,
             (e.Tick (oracle s).1 (oracle s).2 env).2
               ++ (runLoop env oracle f (s + 1) (e.Tick (oracle s).1 (oracle s).2 env).1).2))
    ∧ (∀ e : EventLoop, (EventLoop.Done e).done = true) := by
  refine ⟨?_, rfl, ?_, ?_, ?_, fun e => rfl⟩
  · unfold EventLoop.Run
    rw [broadcastCalls_eq]
  · intro u hu
    simp only [EventLoop.runInit, List.mem_map] at hu
    obtain ⟨t, ht, hu⟩ := hu
    exact ⟨t, ht, by rw [← hu]; rfl⟩
  · intro f s e he
    cases f with
    | zero => rfl
    | succ f => simp [runLoop, he]
  · intro f s e he
    simp [runLoop, he]

/-- An oracle whose every tick happens at time 0 with no ready keys. -/
def oracle0 : TickOracle := fun _ => (0, [])

/-- Witness for C8: a loop whose flag is set runs no tick at all, and
`NewEventLoop` (flag clear) runs one complete tick before the next
observation of the flag. -/
theorem run_phases_and_termination_witness :
    runLoop env0 oracle0 3 0 (EventLoop.Done NewEventLoop)
        = (EventLoop.Done NewEventLoop, [])
    ∧ runLoop env0 oracle0 1 0 NewEventLoop
        = ((runLoop env0 oracle0 0 1
              (NewEventLoop.Tick (oracle0 0).1 (oracle0 0).2 env0).1).1,
           (NewEventLoop.Tick (oracle0 0).1 (oracle0 0).2 env0).2
             ++ (runLoop env0 oracle0 0 1
                  (NewEventLoop.Tick (oracle0 0).1 (oracle0 0).2 env0).1).2) :=
  ⟨(run_phases_and_termination NewEventLoop 0 env0 oracle0 3).2.2.2.1 3 0
      (EventLoop.Done NewEventLoop) rfl,
   (run_phases_and_termination NewEventLoop 0 env0 oracle0 3).2.2.2.2.1 0 0
      NewEventLoop rfl⟩

end Camellia
